import Mathlib

/-!
# Verification of the AoO (audio over OSC) source/sink contract

Shallow embedding of `lib/aoo/aoo.hpp` (the public C++ façade of the AoO
streaming engine) together with models of the protocol-engine components
(source sequencing, resend buffer, jitter buffer, event queue, peer set,
option store) that the header's pure-virtual methods delegate to.  The
engine implementation itself is not part of the available sources, so
those components are modelled from the specification document; every such
definition carries a doc comment starting with `Modelled from the spec:`.
-/

namespace Aoo

/-! ## Option opcodes and the façade's option-call helpers

`aoo.hpp` exposes one inline helper per tunable; each helper forwards to
the pure-virtual `set_option` / `get_option` (or the per-peer
`set_sinkoption` / `get_sinkoption` / `set_sourceoption` /
`get_sourceoption`) with a fixed opcode.  We embed each helper as the
option call it performs: which accessor direction, which opcode, and
which scope (own options vs. per-peer options). -/

/-- The option opcodes named in `aoo.hpp` (their numeric values live in
`aoo.h`, which only declares them; identity is all the façade uses). -/
inductive OptOpcode where
  | format
  | buffersize
  | timefilter_bandwidth
  | packetsize
  | resend_buffersize
  | channelonset
  | reset
  | ping_interval
  | resend_limit
  | resend_interval
  | resend_maxnumframes
  deriving DecidableEq, Repr

/-- Direction of an option accessor call: the set-option mechanism or the
get-option mechanism. -/
inductive OptAction where
  | set
  | get
  deriving DecidableEq, Repr

/-- Scope of an option accessor call: the instance's own option table
(`set_option`/`get_option`), a sink peer's options as seen from a source
(`set_sinkoption`/`get_sinkoption`), or a source peer's options as seen
from a sink (`set_sourceoption`/`get_sourceoption`). -/
inductive OptScope where
  | self
  | sink_peer
  | source_peer
  deriving DecidableEq, Repr

/-- An option accessor invocation as performed by a façade helper. -/
structure OptionCall where
  action : OptAction
  opt : OptOpcode
  scope : OptScope
  deriving DecidableEq, Repr

namespace isource

/-- Facade member `isource::set_format` calls `set_option(aoo_opt_format, ...)`. -/
def set_format : OptionCall := ⟨.set, .format, .self⟩

/-- Facade member `isource::get_format` calls `get_option(aoo_opt_format, ...)`. -/
def get_format : OptionCall := ⟨.get, .format, .self⟩

/-- Facade member `isource::set_buffersize` calls `set_option(aoo_opt_buffersize, ...)`. -/
def set_buffersize : OptionCall := ⟨.set, .buffersize, .self⟩

/-- Facade member `isource::get_buffersize` calls `get_option(aoo_opt_buffersize, ...)`. -/
def get_buffersize : OptionCall := ⟨.get, .buffersize, .self⟩

/-- Facade member `isource::set_timefilter_bandwidth` calls
`set_option(aoo_opt_timefilter_bandwidth, ...)`. -/
def set_timefilter_bandwidth : OptionCall := ⟨.set, .timefilter_bandwidth, .self⟩

/-- Facade member `isource::get_timefilter_bandwidth` calls
`get_option(aoo_opt_timefilter_bandwidth, ...)`. -/
def get_timefilter_bandwidth : OptionCall := ⟨.get, .timefilter_bandwidth, .self⟩

/-- Facade member `isource::set_packetsize` calls `set_option(aoo_opt_packetsize, ...)`. -/
def set_packetsize : OptionCall := ⟨.set, .packetsize, .self⟩

/-- Facade member `isource::get_packetsize` calls `get_option(aoo_opt_packetsize, ...)`. -/
def get_packetsize : OptionCall := ⟨.get, .packetsize, .self⟩

/-- The first `isource::set_resend_buffersize` overload, taking
`int32_t n` by value (aoo.hpp line 115): it calls
`set_option(aoo_opt_resend_buffersize, AOO_ARG(n))`. -/
def set_resend_buffersize_byval : OptionCall := ⟨.set, .resend_buffersize, .self⟩

/-- The second `isource::set_resend_buffersize` overload, taking
`int32_t& n` by reference (aoo.hpp line 119): its body calls
`get_option(aoo_opt_resend_buffersize, AOO_ARG(n))` — a get, despite the
`set_` name. -/
def set_resend_buffersize_byref : OptionCall := ⟨.get, .resend_buffersize, .self⟩

/-- Facade member `isource::set_sink_channelonset` calls
`set_sinkoption(endpoint, id, aoo_opt_channelonset, ...)`. -/
def set_sink_channelonset : OptionCall := ⟨.set, .channelonset, .sink_peer⟩

/-- Facade member `isource::get_sink_channelonset` calls
`get_sinkoption(endpoint, id, aoo_opt_channelonset, ...)`. -/
def get_sink_channelonset : OptionCall := ⟨.get, .channelonset, .sink_peer⟩

end isource

namespace isink

/-- Facade member `isink::reset` calls `set_option(aoo_opt_reset, AOO_ARGNULL)`. -/
def reset : OptionCall := ⟨.set, .reset, .self⟩

/-- Facade member `isink::set_buffersize` calls `set_option(aoo_opt_buffersize, ...)`. -/
def set_buffersize : OptionCall := ⟨.set, .buffersize, .self⟩

/-- Facade member `isink::get_buffersize` calls `get_option(aoo_opt_buffersize, ...)`. -/
def get_buffersize : OptionCall := ⟨.get, .buffersize, .self⟩

/-- Facade member `isink::set_timefilter_bandwidth` calls
`set_option(aoo_opt_timefilter_bandwidth, ...)`. -/
def set_timefilter_bandwidth : OptionCall := ⟨.set, .timefilter_bandwidth, .self⟩

/-- Facade member `isink::get_timefilter_bandwidth` calls
`get_option(aoo_opt_timefilter_bandwidth, ...)`. -/
def get_timefilter_bandwidth : OptionCall := ⟨.get, .timefilter_bandwidth, .self⟩

/-- Facade member `isink::set_packetsize` calls `set_option(aoo_opt_packetsize, ...)`. -/
def set_packetsize : OptionCall := ⟨.set, .packetsize, .self⟩

/-- Facade member `isink::get_packetsize` calls `get_option(aoo_opt_packetsize, ...)`. -/
def get_packetsize : OptionCall := ⟨.get, .packetsize, .self⟩

/-- Facade member `isink::set_ping_interval` calls `set_option(aoo_opt_ping_interval, ...)`. -/
def set_ping_interval : OptionCall := ⟨.set, .ping_interval, .self⟩

/-- Facade member `isink::get_ping_interval` calls `get_option(aoo_opt_ping_interval, ...)`. -/
def get_ping_interval : OptionCall := ⟨.get, .ping_interval, .self⟩

/-- Facade member `isink::set_resend_limit` calls `set_option(aoo_opt_resend_limit, ...)`. -/
def set_resend_limit : OptionCall := ⟨.set, .resend_limit, .self⟩

/-- Facade member `isink::get_resend_limit` calls `get_option(aoo_opt_resend_limit, ...)`. -/
def get_resend_limit : OptionCall := ⟨.get, .resend_limit, .self⟩

/-- Facade member `isink::set_resend_interval` calls
`set_option(aoo_opt_resend_interval, ...)`. -/
def set_resend_interval : OptionCall := ⟨.set, .resend_interval, .self⟩

/-- Facade member `isink::get_resend_interval` calls
`get_option(aoo_opt_resend_interval, ...)`. -/
def get_resend_interval : OptionCall := ⟨.get, .resend_interval, .self⟩

/-- Facade member `isink::set_resend_maxnumframes` calls
`set_option(aoo_opt_resend_maxnumframes, ...)`. -/
def set_resend_maxnumframes : OptionCall := ⟨.set, .resend_maxnumframes, .self⟩

/-- Facade member `isink::get_resend_maxnumframes` calls
`get_option(aoo_opt_resend_maxnumframes, ...)`. -/
def get_resend_maxnumframes : OptionCall := ⟨.get, .resend_maxnumframes, .self⟩

/-- Facade member `isink::reset_source` calls
`set_sourceoption(endpoint, id, aoo_opt_reset, AOO_ARGNULL)`. -/
def reset_source : OptionCall := ⟨.set, .reset, .source_peer⟩

/-- Facade member `isink::get_source_format` calls
`get_sourceoption(endpoint, id, aoo_opt_format, ...)`. -/
def get_source_format : OptionCall := ⟨.get, .format, .source_peer⟩

end isink

/-! ## Packets and source-side sequencing -/

/-- Modelled from the spec: a Packet is {stream id, sequence number
(monotonic per stream), sender timestamp, flag indicating resend-reply
vs. original}; the encoded audio payload is opaque here.  The engine
behind `isource::process` is not among the available sources. -/
structure Packet where
  stream_id : Nat
  seq : Nat
  timestamp : Nat
  is_resend : Bool
  deriving DecidableEq, Repr

/-- Modelled from the spec: the Source Engine owns one outbound stream
with a current sequence counter; `isource::process` consumes one audio
block, stamps it, and drives packet numbering.  Only the sequencing
state is modelled. -/
structure SourceSeqState where
  stream_id : Nat
  seq : Nat
  deriving DecidableEq, Repr

/-- Modelled from the spec: one `isource::process` step emits a packet
carrying the current sequence counter and advances the counter. -/
def processEmit (s : SourceSeqState) (t : Nat) : SourceSeqState × Packet :=
  (⟨s.stream_id, s.seq + 1⟩, ⟨s.stream_id, s.seq, t, false⟩)

/-- Modelled from the spec: a run of successive `isource::process` steps
of one sender instance, one timestamp per audio block, returning the
final state and the packets emitted in order. -/
def processRun (s : SourceSeqState) : List Nat → SourceSeqState × List Packet
  | [] => (s, [])
  | t :: ts =>
      let step := processEmit s t
      let rest := processRun step.1 ts
      (rest.1, step.2 :: rest.2)

/-! ## The sender-side Resend Buffer -/

/-- Modelled from the spec: the bounded-FIFO retention discipline shared
by the Resend Buffer and the Event Queue — append the new element and,
if the configured capacity would be exceeded, drop from the front
(oldest first) until the capacity is met. -/
def boundedPush {α : Type} (cap : Nat) (l : List α) (x : α) : List α :=
  (l ++ [x]).drop (l.length + 1 - cap)

/-- Modelled from the spec: the Resend Buffer is a bounded retained
window of recently-sent packets on the sender side, bounded by a
configured buffer size (`resend_buffersize`); oldest entries are
evicted when it is full. -/
structure ResendBuffer where
  cap : Nat
  entries : List Packet
  deriving DecidableEq, Repr

/-- Modelled from the spec: retaining a freshly sent packet in the
Resend Buffer (evicting the oldest entry when the buffer is full). -/
def ResendBuffer.retain (b : ResendBuffer) (p : Packet) : ResendBuffer :=
  ⟨b.cap, boundedPush b.cap b.entries p⟩

/-- Modelled from the spec: retaining a whole sequence of sent packets,
oldest first. -/
def ResendBuffer.retainAll (b : ResendBuffer) (ps : List Packet) : ResendBuffer :=
  ps.foldl ResendBuffer.retain b

/-- Modelled from the spec: serving a resend request — the source serves
a request only if the requested sequence number is still present in the
bounded Resend Buffer; otherwise the request is not served (`none`). -/
def ResendBuffer.serve (b : ResendBuffer) (s : Nat) : Option Packet :=
  b.entries.find? (fun p => p.seq == s)

/-! ## The receive-side Jitter Buffer -/

/-- Modelled from the spec: the per-peer Jitter Buffer is an ordered
store of arrived (and resent) frames, identified by their timeline
position (sequence number); `next` is the next timeline position due
for release to the audio path, `store` holds the arrived positions not
yet released. -/
structure JitterBuffer where
  next : Nat
  store : List Nat
  deriving DecidableEq, Repr

/-- Modelled from the spec: an arrival (original or resend delivery) in
any physical order; out-of-window (already released) or duplicate
sequence numbers are dropped. -/
def JitterBuffer.insert (jb : JitterBuffer) (s : Nat) : JitterBuffer :=
  if s < jb.next ∨ s ∈ jb.store then jb else ⟨jb.next, s :: jb.store⟩

/-- Modelled from the spec: one `isink::process` audio-block call
releases to the audio-rate role the frames due at this time — the
consecutive run of arrived frames starting at `next`; release stops at
the first gap still within its recovery window. -/
def JitterBuffer.release (jb : JitterBuffer) : JitterBuffer × List Nat :=
  if h : jb.next ∈ jb.store then
    let rest := JitterBuffer.release ⟨jb.next + 1, jb.store.erase jb.next⟩
    (rest.1, jb.next :: rest.2)
  else (jb, [])
termination_by jb.store.length
decreasing_by
  simp only [List.length_erase_of_mem h]
  exact Nat.sub_lt (List.length_pos.mpr (List.ne_nil_of_mem h)) Nat.one_pos

/-- Modelled from the spec: a frame past its recovery window is treated
as permanently lost; the Jitter Buffer skips its position (silence
fill) rather than waiting, but never skips a frame that has arrived. -/
def JitterBuffer.expire (jb : JitterBuffer) : JitterBuffer :=
  if jb.next ∈ jb.store then jb else ⟨jb.next + 1, jb.store⟩

/-- Modelled from the spec: the operations that may hit a peer's Jitter
Buffer, in any interleaving: a network-role arrival, an audio-role
process (release) call, or the expiry of a permanently lost frame. -/
inductive JOp where
  | arrive (s : Nat)
  | process
  | expire
  deriving DecidableEq, Repr

/-- Modelled from the spec: running an arbitrary interleaving of
arrivals, process calls and expiries against a Jitter Buffer,
collecting every timeline position released to the audio-rate role, in
release order. -/
def jitterRun (jb : JitterBuffer) : List JOp → JitterBuffer × List Nat
  | [] => (jb, [])
  | op :: ops =>
      match op with
      | .arrive s => jitterRun (jb.insert s) ops
      | .process =>
          let rel := jb.release
          let rest := jitterRun rel.1 ops
          (rest.1, rel.2 ++ rest.2)
      | .expire => jitterRun jb.expire ops

/-! ## The Event Queue -/

/-- Modelled from the spec: an Event is a tagged record describing a
state transition (kind + stream/peer id); payloads are opaque here. -/
structure Event where
  kind : Nat
  peer : Nat
  deriving DecidableEq, Repr

/-- Modelled from the spec: the Event Queue is bounded with
oldest-drop-on-overflow, counting dropped events in a dedicated
lost-event metric rather than silently swallowing them. -/
structure EventQueue where
  cap : Nat
  items : List Event
  lost : Nat
  deriving DecidableEq, Repr

/-- Modelled from the spec: `publish(event)` appends the event; on
overflow it drops the oldest queued events and increments the
lost-event counter.  It is a total function: it never fails. -/
def EventQueue.publish (q : EventQueue) (e : Event) : EventQueue :=
  ⟨q.cap, boundedPush q.cap q.items e,
    q.lost + (if q.items.length < q.cap then 0 else 1)⟩

/-- Modelled from the spec: publishing a sequence of events in order. -/
def EventQueue.publishAll (q : EventQueue) (es : List Event) : EventQueue :=
  es.foldl EventQueue.publish q

/-- Modelled from the spec: `drain()`/`handle_events()` pops and hands
out all currently queued events, leaving the queue empty. -/
def EventQueue.drain (q : EventQueue) : EventQueue × List Event :=
  (⟨q.cap, [], q.lost⟩, q.items)

/-! ## The source's peer set and the reply channel -/

/-- Modelled from the spec: a peer key is the (opaque endpoint handle,
numeric sub-id) pair under which a source registers a sink; the reply
function is bound to this key. -/
structure PeerKey where
  endpoint : Nat
  id : Nat
  deriving DecidableEq, Repr

/-- Modelled from the spec: the control/network/audio operations that
touch a source's peer set, in any interleaving: registering a sink
(idempotent re-add), removing a sink, and a network-role delivery step
(`send` draining staged packets, or serving a resend) which invokes the
reply function of every currently registered peer. -/
inductive SOp where
  | add (p : PeerKey)
  | remove (p : PeerKey)
  | deliver
  deriving DecidableEq, Repr

/-- Modelled from the spec: one step of the source engine on its peer
set, returning the new peer set and the peers whose reply functions are
invoked during this step. -/
def sourceStep (peers : List PeerKey) : SOp → List PeerKey × List PeerKey
  | .add p => (if p ∈ peers then peers else p :: peers, [])
  | .remove p => (peers.filter (fun q => q ≠ p), [])
  | .deliver => (peers, peers)

/-- Modelled from the spec: running an arbitrary interleaving of
add/remove/delivery steps, collecting the full log of reply-function
invocations in order. -/
def sourceRun (peers : List PeerKey) : List SOp → List PeerKey × List PeerKey
  | [] => (peers, [])
  | op :: ops =>
      let st := sourceStep peers op
      let rest := sourceRun st.1 ops
      (rest.1, st.2 ++ rest.2)

/-- Modelled from the spec: the dedicated event kind for a
reply-function failure (`PeerUnreachable`), reported per peer. -/
def peerUnreachableKind : Nat := 4

/-- Modelled from the spec: one `isource::send` fan-out over the
registered peers, where `fails p` says whether peer `p`'s reply
function fails on this cycle.  Delivery proceeds peer by peer: a
failing peer contributes a per-peer `PeerUnreachable` event instead of
aborting; every other peer is still delivered to.  Returns the peers
actually delivered to and the failure events, in peer order. -/
def sendFanout : List PeerKey → (PeerKey → Bool) → List PeerKey × List Event
  | [], _ => ([], [])
  | p :: ps, fails =>
      let rest := sendFanout ps fails
      if fails p then
        (rest.1, ⟨peerUnreachableKind, p.id⟩ :: rest.2)
      else
        (p :: rest.1, rest.2)

/-- Modelled from the spec: a full send step — fan out to all peers,
then report each reply failure as a per-peer event on the Event Queue.
Total: no exception crosses the engine boundary. -/
def sourceSend (peers : List PeerKey) (fails : PeerKey → Bool)
    (q : EventQueue) : List PeerKey × EventQueue :=
  let fo := sendFanout peers fails
  (fo.1, q.publishAll fo.2)

/-! ## The option store behind set_option/get_option -/

/-- Modelled from the spec: the engine behind the pure-virtual
`set_option`/`get_option` keeps one stored value per opcode; `validate`
is the engine's acceptance predicate for tunable values. -/
structure OptionStore where
  vals : OptOpcode → Int

/-- Modelled from the spec: `set_option` on a malformed tunable value is
rejected with an error return code and the prior value is retained;
a well-formed value is stored and `0` (success) returned. -/
def OptionStore.set_option (validate : OptOpcode → Int → Bool)
    (st : OptionStore) (opt : OptOpcode) (v : Int) : Int × OptionStore :=
  if validate opt v then
    (0, ⟨fun o => if o = opt then v else st.vals o⟩)
  else
    (-1, st)

/-- Modelled from the spec: `get_option` returns the stored value of the
requested opcode. -/
def OptionStore.get_option (st : OptionStore) (opt : OptOpcode) : Int :=
  st.vals opt

/-! ## Lifecycle: create/destroy routed through the C API

These embed the inline functions and the custom deleter of `aoo.hpp`
(lines 33-46, 144-150, 156-169, 271-277).  The C functions
`aoo_source_new`/`aoo_source_free`/`aoo_sink_new`/`aoo_sink_free` are
declared in `aoo.h` and implemented elsewhere, so the embedding is
parameterized over them. -/

/-- The C API surface used by the façade's lifecycle functions:
`aoo_source_new`, `aoo_source_free`, `aoo_sink_new`, `aoo_sink_free`,
abstract in the instance types `Src`/`Snk` and the teardown effect
type `E`. -/
structure AooCApi (Src Snk E : Type) where
  aoo_source_new : Int → Src
  aoo_source_free : Src → E
  aoo_sink_new : Int → Snk
  aoo_sink_free : Snk → E

/-- Facade member `isource::create(id)` is inline defined as `return aoo_source_new(id);`. -/
def isource_create {Src Snk E : Type} (api : AooCApi Src Snk E) (id : Int) : Src :=
  api.aoo_source_new id

/-- Facade member `isource::destroy(src)` is inline defined as `aoo_source_free(src);`. -/
def isource_destroy {Src Snk E : Type} (api : AooCApi Src Snk E) (x : Src) : E :=
  api.aoo_source_free x

/-- Facade member `isource::deleter::operator()(x)` calls `destroy(x)`. -/
def isource_deleter {Src Snk E : Type} (api : AooCApi Src Snk E) (x : Src) : E :=
  isource_destroy api x

/-- Destroying an `isource::pointer` (a `std::unique_ptr` with the custom
deleter) invokes `deleter::operator()` on the held instance — never a
virtual or plain `delete` (the destructor is non-virtual and protected). -/
def isource_pointer_drop {Src Snk E : Type} (api : AooCApi Src Snk E) (x : Src) : E :=
  isource_deleter api x

/-- Facade member `isink::create(id)` is inline defined as `return aoo_sink_new(id);`. -/
def isink_create {Src Snk E : Type} (api : AooCApi Src Snk E) (id : Int) : Snk :=
  api.aoo_sink_new id

/-- Facade member `isink::destroy(sink)` is inline defined as `aoo_sink_free(sink);`. -/
def isink_destroy {Src Snk E : Type} (api : AooCApi Src Snk E) (x : Snk) : E :=
  api.aoo_sink_free x

/-- Facade member `isink::deleter::operator()(x)` calls `destroy(x)`. -/
def isink_deleter {Src Snk E : Type} (api : AooCApi Src Snk E) (x : Snk) : E :=
  isink_destroy api x

/-- Destroying an `isink::pointer` invokes `deleter::operator()` on the
held instance. -/
def isink_pointer_drop {Src Snk E : Type} (api : AooCApi Src Snk E) (x : Snk) : E :=
  isink_deleter api x

/-! ## Helper lemmas -/

lemma processRun_map_seq (ts : List Nat) : ∀ s : SourceSeqState,
    ((processRun s ts).2).map Packet.seq = List.range' s.seq ts.length := by
  induction ts with
  | nil => intro s; simp [processRun]
  | cons t ts ih =>
      intro s
      simp only [processRun, processEmit, List.map_cons, List.range'_succ]
      exact congrArg _ (ih ⟨s.stream_id, s.seq + 1⟩)

lemma length_boundedPush {α : Type} (cap : Nat) (l : List α) (x : α) :
    (boundedPush cap l x).length = min (l.length + 1) cap := by
  simp only [boundedPush, List.length_drop, List.length_append, List.length_cons,
    List.length_nil]
  omega

lemma foldl_boundedPush {α : Type} (cap : Nat) (xs : List α) : ∀ l : List α,
    l.length ≤ cap →
    xs.foldl (boundedPush cap) l = (l ++ xs).drop (l.length + xs.length - cap) := by
  induction xs with
  | nil =>
      intro l hinv
      simp [Nat.sub_eq_zero_of_le hinv]
  | cons x xs ih =>
      intro l hinv
      rw [List.foldl_cons, ih _ (by rw [length_boundedPush]; omega)]
      have hle : l.length + 1 - cap ≤ (l ++ [x]).length := by
        simp only [List.length_append, List.length_cons, List.length_nil]
        omega
      have h1 : boundedPush cap l x ++ xs = ((l ++ [x]) ++ xs).drop (l.length + 1 - cap) := by
        rw [boundedPush, List.drop_append_of_le_length hle]
      rw [h1, List.drop_drop]
      have h2 : l.length + 1 - cap + ((boundedPush cap l x).length + xs.length - cap)
          = l.length + (x :: xs).length - cap := by
        rw [length_boundedPush]
        simp only [List.length_cons]
        omega
      rw [h2, List.append_assoc, List.singleton_append]

lemma retainAll_spec (ps : List Packet) : ∀ b : ResendBuffer,
    (b.retainAll ps).cap = b.cap ∧
    (b.retainAll ps).entries = ps.foldl (boundedPush b.cap) b.entries := by
  induction ps with
  | nil => intro b; exact ⟨rfl, rfl⟩
  | cons p ps ih =>
      intro b
      have h := ih (b.retain p)
      exact ⟨h.1, h.2⟩

lemma range'_drop (d : Nat) : ∀ a n : Nat,
    (List.range' a n).drop d = List.range' (a + d) (n - d) := by
  induction d with
  | zero => intro a n; simp
  | succ d ih =>
      intro a n
      cases n with
      | zero => simp
      | succ n =>
          rw [List.range'_succ, List.drop_succ_cons, ih (a + 1) n]
          have h1 : a + 1 + d = a + (d + 1) := by omega
          rw [h1, Nat.succ_sub_succ]

lemma processRun_length (ts : List Nat) (s : SourceSeqState) :
    ((processRun s ts).2).length = ts.length := by
  have h := congrArg List.length (processRun_map_seq ts s)
  simpa using h

lemma release_spec : ∀ (n : Nat) (jb : JitterBuffer), jb.store.length ≤ n →
    jb.next ≤ jb.release.1.next ∧
    (∀ x ∈ jb.release.2, jb.next ≤ x ∧ x < jb.release.1.next) ∧
    jb.release.2.Pairwise (· < ·) := by
  intro n
  induction n with
  | zero =>
      intro jb h
      have hnil : jb.store = [] := List.eq_nil_of_length_eq_zero (Nat.le_zero.mp h)
      rw [JitterBuffer.release]
      simp [hnil]
  | succ n ih =>
      intro jb h
      rw [JitterBuffer.release]
      by_cases hm : jb.next ∈ jb.store
      · simp only [dif_pos hm]
        have hlen : (jb.store.erase jb.next).length ≤ n := by
          rw [List.length_erase_of_mem hm]
          omega
        obtain ⟨h1, h2, h3⟩ :=
          ih ⟨jb.next + 1, jb.store.erase jb.next⟩ hlen
        refine ⟨?_, ?_, ?_⟩
        · exact Nat.le_trans (Nat.le_succ _) h1
        · intro x hx
          rcases List.mem_cons.mp hx with rfl | hx
          · exact ⟨Nat.le_refl _, Nat.lt_of_lt_of_le (Nat.lt_succ_self _) h1⟩
          · exact ⟨Nat.le_trans (Nat.le_succ _) (h2 x hx).1, (h2 x hx).2⟩
        · exact List.Pairwise.cons
            (fun y hy => Nat.lt_of_lt_of_le (Nat.lt_succ_self _) (h2 y hy).1) h3
      · simp [dif_neg hm]

lemma jitterRun_spec : ∀ (ops : List JOp) (jb : JitterBuffer),
    jb.next ≤ (jitterRun jb ops).1.next ∧
    (∀ x ∈ (jitterRun jb ops).2, jb.next ≤ x) ∧
    (jitterRun jb ops).2.Pairwise (· < ·) := by
  intro ops
  induction ops with
  | nil => intro jb; simp [jitterRun]
  | cons op ops ih =>
      intro jb
      cases op with
      | arrive s =>
          have hnext : (jb.insert s).next = jb.next := by
            rw [JitterBuffer.insert]; split <;> rfl
          have h := ih (jb.insert s)
          show jb.next ≤ (jitterRun (jb.insert s) ops).1.next ∧ _
          rw [← hnext]
          exact h
      | process =>
          obtain ⟨r1, r2, r3⟩ :=
            release_spec jb.store.length jb (Nat.le_refl _)
          obtain ⟨i1, i2, i3⟩ := ih jb.release.1
          show jb.next ≤ (jitterRun jb.release.1 ops).1.next ∧
            (∀ x ∈ jb.release.2 ++ (jitterRun jb.release.1 ops).2, jb.next ≤ x) ∧
            (jb.release.2 ++ (jitterRun jb.release.1 ops).2).Pairwise (· < ·)
          refine ⟨Nat.le_trans r1 i1, ?_, ?_⟩
          · intro x hx
            rcases List.mem_append.mp hx with hx | hx
            · exact (r2 x hx).1
            · exact Nat.le_trans r1 (i2 x hx)
          · rw [List.pairwise_append]
            exact ⟨r3, i3, fun a ha b hb =>
              Nat.lt_of_lt_of_le (r2 a ha).2 (i2 b hb)⟩
      | expire =>
          have hnext : jb.next ≤ jb.expire.next := by
            rw [JitterBuffer.expire]
            split
            · exact Nat.le_refl _
            · exact Nat.le_succ _
          have h := ih jb.expire
          show jb.next ≤ (jitterRun jb.expire ops).1.next ∧
            (∀ x ∈ (jitterRun jb.expire ops).2, jb.next ≤ x) ∧
            (jitterRun jb.expire ops).2.Pairwise (· < ·)
          exact ⟨Nat.le_trans hnext h.1,
            fun x hx => Nat.le_trans hnext (h.2.1 x hx), h.2.2⟩

lemma publishAll_spec (es : List Event) : ∀ q : EventQueue,
    (q.publishAll es).cap = q.cap ∧
    (q.publishAll es).items = es.foldl (boundedPush q.cap) q.items := by
  induction es with
  | nil => intro q; exact ⟨rfl, rfl⟩
  | cons e es ih =>
      intro q
      have h := ih (q.publish e)
      exact ⟨h.1, h.2⟩

lemma publishAll_lost (es : List Event) : ∀ q : EventQueue,
    q.items.length ≤ q.cap →
    (q.publishAll es).lost = q.lost + (q.items.length + es.length - q.cap) := by
  induction es with
  | nil =>
      intro q hinv
      simp [EventQueue.publishAll, Nat.sub_eq_zero_of_le hinv]
  | cons e es ih =>
      intro q hinv
      have hlen : (q.publish e).items.length = min (q.items.length + 1) q.cap :=
        length_boundedPush q.cap q.items e
      have h2 := ih (q.publish e) (by rw [hlen]; show min _ _ ≤ q.cap; omega)
      show (EventQueue.publishAll (q.publish e) es).lost = _
      rw [h2, hlen]
      show q.lost + (if q.items.length < q.cap then 0 else 1) +
        (min (q.items.length + 1) q.cap + es.length - q.cap) = _
      simp only [List.length_cons]
      split <;> omega

lemma sourceRun_no_touch (p : PeerKey) : ∀ (ops : List SOp) (peers : List PeerKey),
    p ∉ peers → SOp.add p ∉ ops →
    p ∉ (sourceRun peers ops).1 ∧ p ∉ (sourceRun peers ops).2 := by
  intro ops
  induction ops with
  | nil =>
      intro peers h1 _
      exact ⟨h1, List.not_mem_nil p⟩
  | cons op ops ih =>
      intro peers hp hops
      have hop : op ≠ SOp.add p := fun h => hops (h ▸ List.mem_cons_self _ _)
      have hops2 : SOp.add p ∉ ops := fun h => hops (List.mem_cons_of_mem _ h)
      cases op with
      | add r =>
          have hr : r ≠ p := fun h => hop (by rw [h])
          have hstep : p ∉ (sourceStep peers (SOp.add r)).1 := by
            show p ∉ (if r ∈ peers then peers else r :: peers)
            split
            · exact hp
            · intro hmem
              rcases List.mem_cons.mp hmem with h | h
              · exact hr h.symm
              · exact hp h
          have h := ih _ hstep hops2
          exact ⟨h.1, h.2⟩
      | remove r =>
          have hstep : p ∉ (sourceStep peers (SOp.remove r)).1 := by
            show p ∉ peers.filter _
            intro hmem
            exact hp (List.mem_filter.mp hmem).1
          have h := ih _ hstep hops2
          exact ⟨h.1, h.2⟩
      | deliver =>
          have h := ih peers hp hops2
          refine ⟨h.1, ?_⟩
          show p ∉ peers ++ (sourceRun peers ops).2
          intro hmem
          rcases List.mem_append.mp hmem with hmem | hmem
          · exact hp hmem
          · exact h.2 hmem

/-! ## Theorems for the claims -/

/-- C1: the claim states that every `set_*` façade helper invokes the
set-option mechanism with the opcode its name denotes — in particular
every overload named `set_resend_buffersize`.  Evaluated at the failing
input, the overload `isource::set_resend_buffersize(int32_t& n)`
(aoo.hpp lines 119-121): its body calls `get_option`, not `set_option`,
so the claim fails on that overload (while it does carry the
resend-buffer-size opcode). -/
theorem C1_set_resend_buffersize_byref_is_a_get :
    isource.set_resend_buffersize_byref.action = OptAction.get ∧
    isource.set_resend_buffersize_byref.opt = OptOpcode.resend_buffersize ∧
    ¬ isource.set_resend_buffersize_byref.action = OptAction.set := by
  refine ⟨rfl, rfl, ?_⟩
  intro h
  simp [isource.set_resend_buffersize_byref] at h

/-- C2: for every sender instance (any start state) and every run of
successive `process` steps, the sequence numbers attached to the
emitted packets are strictly increasing: every packet's sequence number
exceeds that of every packet emitted before it on the stream. -/
theorem C2_process_seq_strictly_increasing (s : SourceSeqState) (ts : List Nat) :
    ((processRun s ts).2).Pairwise (fun p q => p.seq < q.seq) := by
  have h := processRun_map_seq ts s
  have hp : (((processRun s ts).2).map Packet.seq).Pairwise (· < ·) := by
    rw [h]; exact List.pairwise_lt_range' s.seq ts.length
  exact (List.pairwise_map.mp hp)

/-- C3: over any sequence of retained sends (resend-serving reads do not
mutate the buffer), the Resend Buffer never holds more entries than its
configured capacity; and a retain performed while the buffer is full
evicts exactly the oldest retained entry. -/
theorem C3_resend_buffer_capacity (b : ResendBuffer) (ps : List Packet) (p : Packet)
    (hinv : b.entries.length ≤ b.cap) :
    (b.retainAll ps).entries.length ≤ b.cap ∧
    (b.entries.length = b.cap → 0 < b.cap →
      (b.retain p).entries = b.entries.tail ++ [p]) := by
  constructor
  · rw [(retainAll_spec ps b).2, foldl_boundedPush b.cap ps b.entries hinv,
      List.length_drop, List.length_append]
    omega
  · intro hfull hpos
    show boundedPush b.cap b.entries p = b.entries.tail ++ [p]
    rw [boundedPush, hfull]
    have h1 : b.cap + 1 - b.cap = 1 := by omega
    rw [h1, List.drop_append_of_le_length (by omega), List.drop_one]

/-- Witness for C3 at a concrete input: a full buffer of capacity 2
holding two packets, a retain of a third. -/
theorem C3_witness :
    ((⟨2, [⟨1, 0, 100, false⟩, ⟨1, 1, 101, false⟩]⟩ : ResendBuffer).entries.length ≤ 2) ∧
    ((ResendBuffer.retainAll ⟨2, [⟨1, 0, 100, false⟩, ⟨1, 1, 101, false⟩]⟩
        [⟨1, 2, 102, false⟩]).entries.length ≤ 2) ∧
    ((ResendBuffer.retain ⟨2, [⟨1, 0, 100, false⟩, ⟨1, 1, 101, false⟩]⟩
        ⟨1, 2, 102, false⟩).entries
      = [⟨1, 1, 101, false⟩, ⟨1, 2, 102, false⟩]) := by
  have h := C3_resend_buffer_capacity ⟨2, [⟨1, 0, 100, false⟩, ⟨1, 1, 101, false⟩]⟩
    [⟨1, 2, 102, false⟩] ⟨1, 2, 102, false⟩ (by decide)
  exact ⟨by decide, h.1, by rw [h.2 (by decide) (by decide)]; rfl⟩

/-- The resend boundary scenario: a source starting at sequence number 0
emits one packet per timestamp in `ts`; every emitted packet is
retained in a fresh Resend Buffer of capacity `c`. -/
def resendScenario (c sid : Nat) (ts : List Nat) : ResendBuffer :=
  ResendBuffer.retainAll ⟨c, []⟩ (processRun ⟨sid, 0⟩ ts).2

/-- C5 counterexample: with `resend_buffersize = 1`, the packet with
sequence number 0 followed by exactly one (= `resend_buffersize`)
subsequent send is no longer served — the claim states a request
arriving after at most `resend_buffersize` subsequent sends is always
served, which fails at this boundary because retaining the subsequent
packet evicted it. -/
theorem C5_at_most_window_not_always_served :
    (resendScenario 1 7 [10, 20]).serve 0 = none := by decide

/-- C5 (amended): a packet of the run is served exactly when strictly
fewer than `resend_buffersize` sends followed it — i.e. packet `s` of a
run of `ts.length` sends is recoverable iff `ts.length ≤ s + c`; with
`resend_buffersize` or more subsequent sends it is never served. -/
theorem C5_recoverability_window (c sid : Nat) (ts : List Nat) (s : Nat)
    (hs : s < ts.length) :
    ((resendScenario c sid ts).serve s).isSome ↔ ts.length ≤ s + c := by
  have hent : (resendScenario c sid ts).entries
      = ((processRun ⟨sid, 0⟩ ts).2).drop (ts.length - c) := by
    rw [resendScenario, (retainAll_spec _ _).2,
      foldl_boundedPush _ _ _ (by simp)]
    simp [processRun_length]
  have hmap : ((resendScenario c sid ts).entries).map Packet.seq
      = List.range' (ts.length - c) (ts.length - (ts.length - c)) := by
    rw [hent, List.map_drop, processRun_map_seq, range'_drop]
    simp
  simp only [ResendBuffer.serve, List.find?_isSome, beq_iff_eq]
  rw [← List.mem_map (f := Packet.seq), hmap, List.mem_range'_1]
  omega

/-- Witness for C5 (amended) at a concrete input: capacity 1, a run of
two sends, request for sequence number 0. -/
theorem C5_recoverability_window_witness :
    0 < ([10, 20] : List Nat).length ∧
    (((resendScenario 1 7 [10, 20]).serve 0).isSome ↔ ([10, 20] : List Nat).length ≤ 0 + 1) :=
  ⟨by decide, C5_recoverability_window 1 7 [10, 20] 0 (by decide)⟩

/-- C4: for every jitter-buffer state and every interleaving of arrivals
(in any physical order, including resends and duplicates), process
calls and recovery-window expiries, the timeline positions released to
the audio-rate role are in strictly non-decreasing order: no released
frame is earlier than any frame released before it. -/
theorem C4_releases_monotone (jb : JitterBuffer) (ops : List JOp) :
    ((jitterRun jb ops).2).Pairwise (· ≤ ·) :=
  ((jitterRun_spec ops jb).2.2).imp (fun h => Nat.le_of_lt h)

/-- An Event Queue of capacity `cap` and initial lost-event counter
`lost0` after publishing the events `es` in order from an empty queue. -/
def eventScenario (cap lost0 : Nat) (es : List Event) : EventQueue :=
  EventQueue.publishAll ⟨cap, [], lost0⟩ es

/-- C6: publishing N events into an empty Event Queue and then draining
once yields exactly the N published events — no duplication, no loss,
lost-event counter untouched — whenever N is at most the capacity;
publishing more than the capacity drops exactly the oldest
N - capacity events and increments the lost-event counter by exactly
that overflow amount.  (`publish` is a total function, so it never
fails.) -/
theorem C6_event_queue_drain (cap lost0 : Nat) (es : List Event) :
    (es.length ≤ cap →
      (eventScenario cap lost0 es).drain.2 = es ∧
      (eventScenario cap lost0 es).lost = lost0) ∧
    (cap < es.length →
      (eventScenario cap lost0 es).drain.2 = es.drop (es.length - cap) ∧
      (eventScenario cap lost0 es).lost = lost0 + (es.length - cap)) := by
  have hitems : (eventScenario cap lost0 es).drain.2 = es.drop (es.length - cap) := by
    show (eventScenario cap lost0 es).items = _
    rw [eventScenario, (publishAll_spec es _).2,
      foldl_boundedPush _ _ _ (by simp)]
    simp
  have hlost : (eventScenario cap lost0 es).lost = lost0 + (es.length - cap) := by
    have h := publishAll_lost es ⟨cap, [], lost0⟩ (by simp)
    simpa using h
  constructor
  · intro h
    refine ⟨?_, ?_⟩
    · rw [hitems, Nat.sub_eq_zero_of_le h, List.drop_zero]
    · rw [hlost]; omega
  · intro _
    exact ⟨hitems, hlost⟩

/-- Witness for C6 at a concrete overflowing input: capacity 2, three
events published; the oldest is dropped and the lost counter grows by
exactly one. -/
theorem C6_event_queue_drain_witness :
    (2 < ([⟨1, 1⟩, ⟨2, 2⟩, ⟨3, 3⟩] : List Event).length) ∧
    ((eventScenario 2 5 [⟨1, 1⟩, ⟨2, 2⟩, ⟨3, 3⟩]).drain.2
        = ([⟨1, 1⟩, ⟨2, 2⟩, ⟨3, 3⟩] : List Event).drop
            (([⟨1, 1⟩, ⟨2, 2⟩, ⟨3, 3⟩] : List Event).length - 2) ∧
      (eventScenario 2 5 [⟨1, 1⟩, ⟨2, 2⟩, ⟨3, 3⟩]).lost
        = 5 + (([⟨1, 1⟩, ⟨2, 2⟩, ⟨3, 3⟩] : List Event).length - 2)) :=
  ⟨by decide, (C6_event_queue_drain 2 5 [⟨1, 1⟩, ⟨2, 2⟩, ⟨3, 3⟩]).2 (by decide)⟩

/-- C7: once a `remove_sink` for peer `p` has executed, no later step of
any interleaving of add/remove/delivery operations invokes `p`'s reply
function again (provided `p` is not re-registered). -/
theorem C7_remove_sink_no_further_replies (peers0 : List PeerKey)
    (pre post : List SOp) (p : PeerKey) (hpost : SOp.add p ∉ post) :
    p ∉ (sourceRun (sourceStep (sourceRun peers0 pre).1 (SOp.remove p)).1 post).2 := by
  have hrm : p ∉ (sourceStep (sourceRun peers0 pre).1 (SOp.remove p)).1 := by
    show p ∉ List.filter _ _
    intro h
    have h2 := (List.mem_filter.mp h).2
    simp at h2
  exact (sourceRun_no_touch p post _ hrm hpost).2

/-- Witness for C7 at a concrete input: peer (1,1) registered, another
peer added and one delivery before the removal, then a delivery and an
unrelated add afterwards. -/
theorem C7_remove_sink_no_further_replies_witness :
    SOp.add ⟨1, 1⟩ ∉ [SOp.deliver, SOp.add ⟨2, 2⟩] ∧
    (⟨1, 1⟩ : PeerKey) ∉ (sourceRun
      (sourceStep (sourceRun [⟨1, 1⟩] [SOp.add ⟨2, 2⟩, SOp.deliver]).1
        (SOp.remove ⟨1, 1⟩)).1 [SOp.deliver, SOp.add ⟨2, 2⟩]).2 :=
  ⟨by decide, C7_remove_sink_no_further_replies [⟨1, 1⟩]
    [SOp.add ⟨2, 2⟩, SOp.deliver] [SOp.deliver, SOp.add ⟨2, 2⟩] ⟨1, 1⟩ (by decide)⟩

/-- C8: in a send fan-out over the registered peers, a reply-function
failure of one peer is reported as a per-peer `PeerUnreachable` event
(published to the Event Queue by `sourceSend`), while every peer whose
reply function does not fail is still delivered to; the fan-out is a
total function, so no exception crosses the engine boundary. -/
theorem C8_reply_failure_isolated (fails : PeerKey → Bool) (q : EventQueue)
    (p : PeerKey) : ∀ peers : List PeerKey, p ∈ peers →
    (fails p = false → p ∈ (sourceSend peers fails q).1) ∧
    (fails p = true → Event.mk peerUnreachableKind p.id ∈ (sendFanout peers fails).2) := by
  intro peers
  induction peers with
  | nil => intro hp; exact absurd hp (List.not_mem_nil p)
  | cons r rs ih =>
      intro hp
      rcases List.mem_cons.mp hp with rfl | hmem
      · constructor
        · intro hf
          show p ∈ (sendFanout (p :: rs) fails).1
          simp [sendFanout, hf]
        · intro hf
          simp [sendFanout, hf]
      · have h := ih hmem
        constructor
        · intro hf
          have h1 : p ∈ (sendFanout rs fails).1 := h.1 hf
          show p ∈ (sendFanout (r :: rs) fails).1
          cases hfr : fails r <;> simp [sendFanout, hfr, h1]
        · intro hf
          have h1 := h.2 hf
          show Event.mk peerUnreachableKind p.id ∈ (sendFanout (r :: rs) fails).2
          cases hfr : fails r <;> simp [sendFanout, hfr, h1]

/-- Witness for C8 at a concrete input: two peers, of which only peer
(2,2)'s reply function fails; peer (1,1) is still delivered to and a
per-peer unreachable event for id 2 is produced. -/
theorem C8_reply_failure_isolated_witness :
    ((⟨1, 1⟩ : PeerKey) ∈ ([⟨1, 1⟩, ⟨2, 2⟩] : List PeerKey) ∧
      (⟨2, 2⟩ : PeerKey) ∈ ([⟨1, 1⟩, ⟨2, 2⟩] : List PeerKey)) ∧
    (⟨1, 1⟩ : PeerKey) ∈ (sourceSend [⟨1, 1⟩, ⟨2, 2⟩]
      (fun pk => pk.id == 2) ⟨4, [], 0⟩).1 ∧
    Event.mk peerUnreachableKind 2 ∈ (sendFanout [⟨1, 1⟩, ⟨2, 2⟩]
      (fun pk => pk.id == 2)).2 :=
  ⟨⟨by decide, by decide⟩,
    (C8_reply_failure_isolated (fun pk => pk.id == 2) ⟨4, [], 0⟩ ⟨1, 1⟩
      [⟨1, 1⟩, ⟨2, 2⟩] (by decide)).1 (by decide),
    (C8_reply_failure_isolated (fun pk => pk.id == 2) ⟨4, [], 0⟩ ⟨2, 2⟩
      [⟨1, 1⟩, ⟨2, 2⟩] (by decide)).2 (by decide)⟩

/-- C9: a `set_option` call with a malformed (rejected) tunable value
returns an error code and retains the previously stored value: a
subsequent `get_option` for the same opcode returns the value in effect
before the rejected call. -/
theorem C9_rejected_set_option_retains_prior (validate : OptOpcode → Int → Bool)
    (st : OptionStore) (opt : OptOpcode) (v : Int)
    (h : validate opt v = false) :
    (st.set_option validate opt v).1 = -1 ∧
    ((st.set_option validate opt v).2).get_option opt = st.get_option opt := by
  simp [OptionStore.set_option, h]

/-- Witness for C9 at a concrete rejected input: a validator requiring
nonnegative values, a store holding 42 everywhere, and the malformed
value -1 for the buffer-size opcode. -/
theorem C9_witness :
    (fun (_ : OptOpcode) (n : Int) => decide (0 ≤ n)) OptOpcode.buffersize (-1) = false ∧
    ((OptionStore.set_option (fun _ n => decide (0 ≤ n)) ⟨fun _ => 42⟩
        OptOpcode.buffersize (-1)).1 = -1 ∧
      ((OptionStore.set_option (fun _ n => decide (0 ≤ n)) ⟨fun _ => 42⟩
        OptOpcode.buffersize (-1)).2).get_option OptOpcode.buffersize
        = OptionStore.get_option ⟨fun _ => 42⟩ OptOpcode.buffersize) :=
  ⟨by decide,
    C9_rejected_set_option_retains_prior (fun _ n => decide (0 ≤ n)) ⟨fun _ => 42⟩
      OptOpcode.buffersize (-1) (by decide)⟩

/-- C10: the façade's lifecycle is observationally the underlying C API:
`isource::create(id)` returns exactly `aoo_source_new(id)`,
`isink::create(id)` returns exactly `aoo_sink_new(id)`, and destroying
an instance through the smart-pointer type's deleter routes through the
static destroy function, i.e. performs exactly `aoo_source_free` resp.
`aoo_sink_free` — for every implementation of the C API. -/
theorem C10_lifecycle_refines_c_api {Src Snk E : Type} (api : AooCApi Src Snk E)
    (id : Int) (x : Src) (y : Snk) :
    isource_create api id = api.aoo_source_new id ∧
    isource_pointer_drop api x = api.aoo_source_free x ∧
    isink_create api id = api.aoo_sink_new id ∧
    isink_pointer_drop api y = api.aoo_sink_free y :=
  ⟨rfl, rfl, rfl, rfl⟩

end Aoo
